import Mathlib

/-!
Verification of the conversational-relay core of `leogpt.py` against its
natural-language specification.  The Python source is shallowly embedded:
strings become `List Char` / `String`, the mutable session dictionary becomes
an association list threaded through every operation, the external chat and
AI-backend clients become explicit oracles, and the two unbounded `while`
loops (the chunker and the run poller) are embedded with an explicit fuel
argument, where a `none` result means the loop did not finish within the
given fuel.
-/

namespace LeoGPT

/-! ## Chunker (`send_in_chunks`, leogpt.py lines 42-54)

The Python loop is

    chunk_size = 2000
    while message:
        split_index = (message.rfind(' ', 0, chunk_size) + 1) if len(message) > chunk_size else len(message)
        chunk = message[:split_index].strip()
        await channel.send(chunk)
        message = message[split_index:]

`str.rfind(' ', 0, chunk_size)` returns the highest index of a space among the
first `chunk_size` characters, and `-1` when there is none.  `str.strip()`
removes leading and trailing whitespace (modelled with `Char.isWhitespace`).
The constant 2000 is kept as a parameter `cs` so the spec statements can
quantify over the limit; the source instantiates it with 2000.
-/

/-- Index of the last occurrence of `c` in `l` (`-1` when absent), the
result convention of Python `str.rfind`. -/
def rlastIdx (c : Char) : List Char → Int
  | [] => -1
  | x :: xs =>
      let r := rlastIdx c xs
      if 0 ≤ r then r + 1
      else if x = c then 0 else -1

/-- `split_index` of one loop iteration:
`(message.rfind(' ', 0, chunk_size) + 1) if len(message) > chunk_size else len(message)`. -/
def splitIndex (cs : Nat) (msg : List Char) : Nat :=
  if msg.length > cs then (rlastIdx ' ' (msg.take cs) + 1).toNat else msg.length

/-- Python `str.strip` on the right end: drop trailing whitespace. -/
def dropTrailingWs (l : List Char) : List Char :=
  (l.reverse.dropWhile Char.isWhitespace).reverse

/-- Python `str.strip`: drop leading and trailing whitespace. -/
def stripChars (l : List Char) : List Char :=
  dropTrailingWs (l.dropWhile Char.isWhitespace)

/-- The chunker loop of `send_in_chunks` with explicit fuel.  `none` means the
loop did not terminate within `fuel` iterations; `some chunks` is the ordered
sequence of chunks produced (each chunk is sent as soon as it is computed in
the source; here we collect them). -/
def chunkLoop (cs : Nat) : Nat → List Char → Option (List (List Char))
  | 0, msg => if msg.isEmpty then some [] else none
  | fuel + 1, msg =>
      if msg.isEmpty then some []
      else
        let si := splitIndex cs msg
        (chunkLoop cs fuel (msg.drop si)).map (stripChars (msg.take si) :: ·)

/-- The chunker loop never finishes on `msg`, whatever the fuel. -/
def chunkLoopDiverges (cs : Nat) (msg : List Char) : Prop :=
  ∀ fuel, chunkLoop cs fuel msg = none

/-! ### Reconstruction predicate

`Reconstructs chunks text` says `text` is exactly the chunks in order,
interleaved with (possibly empty) whitespace-only segments — the whitespace
the chunker consumed at split points and stripped from chunk ends. -/

inductive Reconstructs : List (List Char) → List Char → Prop
  | nil (w : List Char) (hw : ∀ c ∈ w, c.isWhitespace = true) : Reconstructs [] w
  | cons (w c : List Char) (rest : List (List Char)) (t : List Char)
      (hw : ∀ x ∈ w, x.isWhitespace = true) (h : Reconstructs rest t) :
      Reconstructs (c :: rest) (w ++ (c ++ t))

/-! ## Response Selector (`retrieve_latest_response`, leogpt.py lines 92-103)

    assistant_messages = [msg for msg in messages.data if msg.role == "assistant"]
    if assistant_messages:
        latest_message = max(assistant_messages, key=lambda x: x.created_at)
        return latest_message.content[0].text.value
    else:
        return "No response from the assistant."

A backend message is modelled with its role, creation timestamp and text,
where `text` stands for the source expression `content[0].text.value`.
Python `max(xs, key=k)` scans left to right and replaces the current best only
when the new key is strictly greater, hence it returns the FIRST element
attaining the maximal key. -/

structure Msg where
  role : String
  created_at : Nat
  text : String
  deriving DecidableEq

/-- Python `max(best :: rest, key=key)`: left fold keeping the current best
unless a strictly greater key appears. -/
def pyMaxBy (key : Msg → Nat) : Msg → List Msg → Msg
  | best, [] => best
  | best, m :: rest => pyMaxBy key (if key best < key m then m else best) rest

def noResponseStr : String := "No response from the assistant."

def retrieve_latest_response (data : List Msg) : String :=
  match data.filter (fun m => m.role == "assistant") with
  | [] => noResponseStr
  | m :: rest => (pyMaxBy (fun x => x.created_at) m rest).text

/-! ## Session Store (`thread_ids`, leogpt.py lines 28, 130-134)

    thread_ids = defaultdict(lambda: {"thread_id": None, "last_used": datetime.now()})

    def cleanup_old_threads():
        now = datetime.now()
        for key, value in list(thread_ids.items()):
            if now - value["last_used"] > timedelta(hours=1):
                del thread_ids[key]

The dictionary is modelled as an insertion-ordered association list with
unique keys (Python dict semantics).  Timestamps are integers (seconds);
`timedelta(hours=1)` becomes the threshold value 3600, kept as a parameter
`th` so spec statements can quantify over the idle threshold. -/

structure Session where
  thread_id : Option String
  last_used : Int
  deriving DecidableEq

/-- Python dict read: value of the first (and, with unique keys, only)
binding of `k`. -/
def storeGet : List (Nat × Session) → Nat → Option Session
  | [], _ => none
  | kv :: rest, k => if kv.1 = k then some kv.2 else storeGet rest k

/-- Python dict assignment `d[k] = v`: replace the binding in place, or
append a new binding at the end. -/
def storeSet : List (Nat × Session) → Nat → Session → List (Nat × Session)
  | [], k, v => [(k, v)]
  | kv :: rest, k, v => if kv.1 = k then (k, v) :: rest else kv :: storeSet rest k v

/-- Python `del d[k]`. -/
def delKey (k : Nat) (store : List (Nat × Session)) : List (Nat × Session) :=
  store.filter (fun kv => kv.1 != k)

/-- `cleanup_old_threads`: iterate over a snapshot of the items and delete
every session idle for more than the threshold. -/
def cleanup_old_threads (now th : Int) (store : List (Nat × Session)) :
    List (Nat × Session) :=
  store.foldl (fun acc kv => if now - kv.2.last_used > th then delKey kv.1 acc else acc)
    store

/-! ## Router pipeline (leogpt.py lines 31-39, 56-89, 106-170)

The two external collaborators — the Discord client and the OpenAI client —
are modelled as oracles: each kind of backend call consumes the next entry of
its result stream, indexed by a per-operation call counter held in the system
state.  `none` / `false` entries model a raised transport exception.  The
system state also records the outbound messages actually delivered, so the
user-visible outcome of an event is `sent`. -/

structure Backend where
  /-- Result of the n-th `openai_client.beta.threads.create()` call:
  `some id` on success, `none` when the call raises. -/
  createThreadR : Nat → Option String
  /-- Success of the n-th `threads.messages.create(...)` call. -/
  createMessageR : Nat → Bool
  /-- Result of the n-th `threads.runs.create(...)` call. -/
  createRunR : Nat → Option String
  /-- Result of the n-th `threads.runs.retrieve(...)` call: `some status`,
  or `none` for a transport failure. -/
  retrieveRunR : Nat → Option String
  /-- Result of the n-th `threads.messages.list(...)` call. -/
  listMessagesR : Nat → Option (List Msg)
  /-- Success of the n-th `channel.send(...)` call. -/
  sendR : Nat → Bool

structure SysState where
  /-- The global `thread_ids` dictionary. -/
  thread_ids : List (Nat × Session)
  ctCalls : Nat
  cmCalls : Nat
  crCalls : Nat
  rrCalls : Nat
  lmCalls : Nat
  sendCalls : Nat
  /-- Messages delivered to the channel, in order. -/
  sent : List String
  deriving DecidableEq

def initState : SysState :=
  { thread_ids := [], ctCalls := 0, cmCalls := 0, crCalls := 0, rrCalls := 0,
    lmCalls := 0, sendCalls := 0, sent := [] }

/-- The fixed fallback text of `interact_with_openai`
(the source literal is "I'm having trouble processing your request right now."). -/
def fallbackStr : String :=
  "I" ++ String.singleton (Char.ofNat 39) ++
    "m having trouble processing your request right now."

/-- `create_new_thread` (lines 31-39): one external creation call; on success
store the handle with a fresh `last_used`, on failure re-raise leaving the
store untouched.  The `Bool` is "no exception was raised". -/
def create_new_thread (be : Backend) (id : Nat) (now : Int) (s : SysState) :
    Bool × SysState :=
  match be.createThreadR s.ctCalls with
  | some tid =>
      (true, { s with thread_ids := storeSet s.thread_ids id ⟨some tid, now⟩,
                      ctCalls := s.ctCalls + 1 })
  | none => (false, { s with ctCalls := s.ctCalls + 1 })

/-- `defaultdict` read `thread_ids[identifier]` (line 108): return the stored
session, inserting a cold default `{"thread_id": None, "last_used": now}`
when the key is absent. -/
def getDefaultSession (id : Nat) (now : Int) (store : List (Nat × Session)) :
    Session × List (Nat × Session) :=
  match storeGet store id with
  | some sess => (sess, store)
  | none => (⟨none, now⟩, storeSet store id ⟨none, now⟩)

/-- Lines 107-112 of `interact_with_openai`: resolve the session, create a
thread if it is cold, and read the (re-fetched) handle.  `(none, s)` means
the creation call raised and the exception propagates (it happens OUTSIDE
the `try` of `interact_with_openai`); `(some tid?, s)` is the value of the
local variable `thread_id` afterwards. -/
def ensureThread (be : Backend) (id : Nat) (now : Int) (s : SysState) :
    Option (Option String) × SysState :=
  let r := getDefaultSession id now s.thread_ids
  let s1 := { s with thread_ids := r.2 }
  match r.1.thread_id with
  | some tid => (some (some tid), s1)
  | none =>
      match create_new_thread be id now s1 with
      | (true, s2) => (some ((storeGet s2.thread_ids id).bind Session.thread_id), s2)
      | (false, s2) => (none, s2)

/-- `check_openai_response` (lines 73-89) with explicit fuel: retrieve the
run status, stop when it is "completed", raise on transport failure,
otherwise sleep and retry.  `none` means the loop did not finish within
`fuel` retrievals; `some (false, s)` means a retrieval raised; `some
(true, s)` means the run completed.  (The adaptive sleep interval has no
observable effect in this model and is omitted.) -/
def pollLoop (be : Backend) : Nat → SysState → Option (Bool × SysState)
  | 0, _ => none
  | fuel + 1, s =>
      match be.retrieveRunR s.rrCalls with
      | none => some (false, { s with rrCalls := s.rrCalls + 1 })
      | some status =>
          if status == "completed" then some (true, { s with rrCalls := s.rrCalls + 1 })
          else pollLoop be fuel { s with rrCalls := s.rrCalls + 1 }

/-- `interact_with_openai` (lines 106-127).  The result is `none` when the
poll loop ran out of fuel, `some (none, s)` when an exception escaped the
function (only possible from thread creation, which sits outside its `try`),
and `some (some text, s)` when it returned `text` — either the selected
reply or the fallback string produced by the `except` clause. -/
def interact_with_openai (be : Backend) (_clean_message : String) (id : Nat) (now : Int)
    (fuel : Nat) (s : SysState) : Option (Option String × SysState) :=
  match ensureThread be id now s with
  | (none, s1) => some (none, s1)
  | (some _tid, s1) =>
      if be.createMessageR s1.cmCalls then
        let s2 := { s1 with cmCalls := s1.cmCalls + 1 }
        match be.createRunR s2.crCalls with
        | none => some (some fallbackStr, { s2 with crCalls := s2.crCalls + 1 })
        | some _rid =>
            let s3 := { s2 with crCalls := s2.crCalls + 1 }
            match pollLoop be fuel s3 with
            | none => none
            | some (false, s4) => some (some fallbackStr, s4)
            | some (true, s4) =>
                match be.listMessagesR s4.lmCalls with
                | none => some (some fallbackStr, { s4 with lmCalls := s4.lmCalls + 1 })
                | some data =>
                    some (some (retrieve_latest_response data),
                      { s4 with lmCalls := s4.lmCalls + 1 })
      else some (some fallbackStr, { s1 with cmCalls := s1.cmCalls + 1 })

/-- `send_in_chunks` (lines 42-54) with its side effects: each iteration cuts
a chunk and performs one `channel.send`.  `none` means the loop did not
finish within `fuel` iterations; `some (false, s)` means a send raised (the
remaining chunks are abandoned); `some (true, s)` means the whole message
was sent. -/
def sendChunksEff (be : Backend) (cs : Nat) : Nat → List Char → SysState →
    Option (Bool × SysState)
  | 0, msg, s => if msg.isEmpty then some (true, s) else none
  | fuel + 1, msg, s =>
      if msg.isEmpty then some (true, s)
      else
        let si := splitIndex cs msg
        let chunk := stripChars (msg.take si)
        if be.sendR s.sendCalls then
          sendChunksEff be cs fuel (msg.drop si)
            { s with sendCalls := s.sendCalls + 1,
                     sent := s.sent ++ [String.mk chunk] }
        else some (false, { s with sendCalls := s.sendCalls + 1 })

/-- One inbound Discord message, with the attributes `on_message` reads. -/
structure Event where
  /-- `message.author == bot.user` -/
  author_is_bot : Bool
  /-- `message.content` (raw) -/
  content : String
  /-- `message.channel.id` -/
  channel_id : Nat
  /-- `bot.user.mentioned_in(message)` -/
  mentions_bot : Bool
  /-- `remove_markdown(message.clean_content)`, the result of `process_message` -/
  clean_content : String
  deriving DecidableEq

/-- Does `needle` occur at the start of `hay`? -/
def leadsWith : List Char → List Char → Bool
  | [], _ => true
  | _ :: _, [] => false
  | x :: xs, y :: ys => (x == y) && leadsWith xs ys

/-- Does `needle` occur anywhere in `hay`? -/
def occursIn (needle : List Char) : List Char → Bool
  | [] => needle.isEmpty
  | c :: rest => leadsWith needle (c :: rest) || occursIn needle rest

/-- Python `needle in hay` on strings: substring containment. -/
def containsTok (hay needle : String) : Bool :=
  occursIn needle.data hay.data

/-- Line 156: `thread_ids[identifier]["last_used"] = datetime.now()` — a
defaultdict read (inserting a cold entry when absent) followed by an
in-place update of `last_used`. -/
def touchSession (id : Nat) (now : Int) (store : List (Nat × Session)) :
    List (Nat × Session) :=
  match storeGet store id with
  | some sess => storeSet store id { sess with last_used := now }
  | none => storeSet store id { thread_id := none, last_used := now }

/-- Lines 156-158: touch the session, then run the idle sweep (threshold one
hour, 3600 seconds). -/
def touchSweep (id : Nat) (now : Int) (s : SysState) : SysState :=
  { s with thread_ids := cleanup_old_threads now 3600 (touchSession id now s.thread_ids) }

/-- `on_message` (lines 145-170).  Every failure raised inside the handler
body is caught by its outer `try`/`except`, which only logs — hence the
handler itself returns normally (`some s`) in those cases.  `none` means an
inner loop did not finish within its fuel. -/
def on_message (be : Backend) (ev : Event) (now : Int) (fuel : Nat) (s : SysState) :
    Option SysState :=
  if ev.author_is_bot then some s
  else if containsTok ev.content "@everyone" || containsTok ev.content "@here" then some s
  else
    let s2 := touchSweep ev.channel_id now s
    if ev.mentions_bot then
      match interact_with_openai be ev.clean_content ev.channel_id now fuel s2 with
      | none => none
      | some (none, s3) => some s3
      | some (some text, s3) =>
          match sendChunksEff be 2000 fuel text.data s3 with
          | none => none
          | some (_, s4) => some s4
    else some s2

/-! ### Concrete fixtures used by witnesses and counterexamples -/

/-- A backend whose calls all succeed, with a single-poll completion. -/
def beAllOk : Backend :=
  { createThreadR := fun _ => some "T1"
    createMessageR := fun _ => true
    createRunR := fun _ => some "R1"
    retrieveRunR := fun _ => some "completed"
    listMessagesR := fun _ => some [⟨"assistant", 3, "ok"⟩]
    sendR := fun _ => true }

/-- Like `beAllOk` but every thread-creation call raises. -/
def beNoThread : Backend :=
  { beAllOk with createThreadR := fun _ => none }

/-- Like `beAllOk` but every message-submission call raises. -/
def beNoSubmit : Backend :=
  { beAllOk with createMessageR := fun _ => false }

/-- Like `beAllOk` but the run is pending on the first two status
retrievals and completed on the third. -/
def beC6 : Backend :=
  { beAllOk with retrieveRunR := fun n => if n < 2 then some "pending" else some "completed" }

/-- An ordinary user message mentioning the bot. -/
def evPlain : Event :=
  { author_is_bot := false, content := "hello bot", channel_id := 1,
    mentions_bot := true, clean_content := "hello bot" }

/-- A message authored by the bot itself. -/
def evBot : Event :=
  { author_is_bot := true, content := "x", channel_id := 1,
    mentions_bot := true, clean_content := "x" }

/-- A user message containing a broadcast mention. -/
def evBroadcast : Event :=
  { author_is_bot := false, content := "hey @everyone look", channel_id := 1,
    mentions_bot := true, clean_content := "hey look" }

/-- A state whose session 1 is already activated with handle "T0". -/
def sHot1 : SysState :=
  { initState with thread_ids := [(1, ⟨some "T0", 0⟩)] }

/-- Like `beAllOk` but every run-creation call raises. -/
def beNoRun : Backend :=
  { beAllOk with createRunR := fun _ => none }

/-- Like `beAllOk` but every status-retrieval call raises. -/
def beNoPoll : Backend :=
  { beAllOk with retrieveRunR := fun _ => none }

/-- Like `beAllOk` but every message-list call raises. -/
def beNoList : Backend :=
  { beAllOk with listMessagesR := fun _ => none }

/-- State of `sHot1` after a submission call. -/
def sAfterTouch : SysState :=
  { thread_ids := [(1, ⟨some "T0", 0⟩)], ctCalls := 0, cmCalls := 1, crCalls := 0,
    rrCalls := 0, lmCalls := 0, sendCalls := 0, sent := [] }

/-- State of `sHot1` after submission, run creation and one completed poll. -/
def sPolled : SysState :=
  { thread_ids := [(1, ⟨some "T0", 0⟩)], ctCalls := 0, cmCalls := 1, crCalls := 1,
    rrCalls := 1, lmCalls := 0, sendCalls := 0, sent := [] }

/-! ### Basic chunker lemmas -/

theorem rlastIdx_ge_neg_one (c : Char) (l : List Char) : -1 ≤ rlastIdx c l := by
  induction l with
  | nil => simp [rlastIdx]
  | cons x xs ih =>
      simp only [rlastIdx]
      split
      · omega
      · split <;> omega

theorem rlastIdx_lt_length (c : Char) (l : List Char) :
    rlastIdx c l < (l.length : Int) := by
  induction l with
  | nil => simp [rlastIdx]
  | cons x xs ih =>
      simp only [rlastIdx, List.length_cons]
      split
      · omega
      · split <;> omega

theorem rlastIdx_eq_neg_one (c : Char) (l : List Char) (h : ∀ x ∈ l, x ≠ c) :
    rlastIdx c l = -1 := by
  induction l with
  | nil => rfl
  | cons x xs ih =>
      have hx : x ≠ c := h x (List.mem_cons_self x xs)
      have hxs : rlastIdx c xs = -1 := ih (fun y hy => h y (List.mem_cons_of_mem x hy))
      simp [rlastIdx, hxs, hx]

theorem splitIndex_le (cs : Nat) (msg : List Char) : splitIndex cs msg ≤ max cs msg.length := by
  unfold splitIndex
  split
  · rename_i h
    have h1 : rlastIdx ' ' (msg.take cs) < ((msg.take cs).length : Int) :=
      rlastIdx_lt_length _ _
    have h2 : (msg.take cs).length ≤ cs := by
      simp [List.length_take]
    have h3 : rlastIdx ' ' (msg.take cs) < (cs : Int) := by
      omega
    omega
  · omega

/-- If the message is longer than the limit, the cut index stays at or below
the limit. -/
theorem splitIndex_le_of_long (cs : Nat) (msg : List Char) (h : msg.length > cs) :
    splitIndex cs msg ≤ cs := by
  unfold splitIndex
  rw [if_pos h]
  have h1 : rlastIdx ' ' (msg.take cs) < ((msg.take cs).length : Int) :=
    rlastIdx_lt_length _ _
  have h2 : (msg.take cs).length ≤ cs := by simp [List.length_take]
  omega

theorem length_dropWhileWs_le (p : Char → Bool) (l : List Char) :
    (l.dropWhile p).length ≤ l.length := by
  induction l with
  | nil => simp [List.dropWhile]
  | cons x xs ih =>
      rw [List.dropWhile_cons]
      split
      · exact le_trans ih (by simp)
      · simp

theorem length_dropTrailingWs_le (l : List Char) : (dropTrailingWs l).length ≤ l.length := by
  unfold dropTrailingWs
  calc ((l.reverse.dropWhile Char.isWhitespace).reverse).length
      = (l.reverse.dropWhile Char.isWhitespace).length := by simp
    _ ≤ l.reverse.length := length_dropWhileWs_le _ _
    _ = l.length := by simp

theorem length_stripChars_le (l : List Char) : (stripChars l).length ≤ l.length :=
  le_trans (length_dropTrailingWs_le _) (length_dropWhileWs_le _ l)

theorem dropTrailingWs_decomp (l : List Char) :
    ∃ w, l = dropTrailingWs l ++ w ∧ ∀ c ∈ w, c.isWhitespace = true := by
  refine ⟨(l.reverse.takeWhile Char.isWhitespace).reverse, ?_, ?_⟩
  · have h := (@List.takeWhile_append_dropWhile _ Char.isWhitespace l.reverse)
    have h2 : l.reverse.reverse =
        ((l.reverse.takeWhile Char.isWhitespace) ++
          (l.reverse.dropWhile Char.isWhitespace)).reverse := by
      rw [h]
    rw [List.reverse_reverse, List.reverse_append] at h2
    rw [dropTrailingWs]
    exact h2
  · intro c hc
    rw [List.mem_reverse] at hc
    exact List.mem_takeWhile_imp hc

theorem stripChars_decomp (l : List Char) :
    ∃ w₁ w₂, l = w₁ ++ stripChars l ++ w₂ ∧
      (∀ c ∈ w₁, c.isWhitespace = true) ∧ (∀ c ∈ w₂, c.isWhitespace = true) := by
  obtain ⟨w₂, h₂, hw₂⟩ := dropTrailingWs_decomp (l.dropWhile Char.isWhitespace)
  refine ⟨l.takeWhile Char.isWhitespace, w₂, ?_, ?_, hw₂⟩
  · conv_lhs => rw [← (@List.takeWhile_append_dropWhile _ Char.isWhitespace l)]
    rw [h₂, stripChars, List.append_assoc]
  · intro c hc
    exact List.mem_takeWhile_imp hc

theorem Reconstructs.ws_prepend {chunks : List (List Char)} {t w : List Char}
    (hw : ∀ c ∈ w, c.isWhitespace = true) (h : Reconstructs chunks t) :
    Reconstructs chunks (w ++ t) := by
  cases h
  case nil =>
    rename_i hw2
    refine .nil (w ++ t) ?_
    intro c hc
    rcases List.mem_append.1 hc with h | h
    · exact hw c h
    · exact hw2 c h
  case cons =>
    rename_i w2 c rest t2 hw2 hrec
    rw [← List.append_assoc]
    refine .cons (w ++ w2) c rest t2 ?_ hrec
    intro x hx
    rcases List.mem_append.1 hx with h | h
    · exact hw x h
    · exact hw2 x h

/-- Every chunk cut by one loop iteration fits in the limit. -/
theorem chunk_length_le (cs : Nat) (msg : List Char) :
    (stripChars (msg.take (splitIndex cs msg))).length ≤ cs := by
  have h1 := length_stripChars_le (msg.take (splitIndex cs msg))
  have h2 : (msg.take (splitIndex cs msg)).length = min (splitIndex cs msg) msg.length := by
    simp [List.length_take]
  by_cases h : msg.length > cs
  · have := splitIndex_le_of_long cs msg h
    omega
  · have h3 : splitIndex cs msg = msg.length := by
      unfold splitIndex
      rw [if_neg h]
    omega

/-! ### Claims C2 and C3 -/

/-- Whenever the chunker loop of the source reaches a state where
`split_index` is 0 (a nonempty remainder with no space among its first
`chunk_size` characters), the remainder is left unchanged and the loop never
finishes. -/
theorem splitIndex_zero_diverges (cs : Nat) (msg : List Char) (hne : msg.isEmpty = false)
    (h0 : splitIndex cs msg = 0) : chunkLoopDiverges cs msg := by
  intro fuel
  induction fuel with
  | zero => simp [chunkLoop, hne]
  | succ fuel ih => simp [chunkLoop, hne, h0, List.drop_zero, ih]

/-- Claim C2 (code bug): the chunker does NOT terminate on every input.  On a
2001-character message with no whitespace and the source limit 2000,
`message.rfind(' ', 0, 2000)` returns `-1`, so `split_index` is `0`, the
slice `message[0:]` leaves the message unchanged, and the `while message:`
loop of `send_in_chunks` runs forever.  (The spec note that `split_index`
becomes 1 in this case is likewise inaccurate.) -/
theorem c2_chunker_nontermination :
    chunkLoopDiverges 2000 (List.replicate 2001 'a') := by
  apply splitIndex_zero_diverges
  · rw [List.replicate_succ]
    rfl
  · have htake : (List.replicate 2001 'a').take 2000 = List.replicate 2000 'a' := by
      rw [List.take_replicate]
      norm_num
    have hr : rlastIdx ' ' (List.replicate 2000 'a') = -1 := by
      apply rlastIdx_eq_neg_one
      intro x hx
      rw [List.eq_of_mem_replicate hx]
      decide
    unfold splitIndex
    rw [if_pos (by rw [List.length_replicate]; omega), htake, hr]
    rfl

/-- Claim C3 (amended, proved): whenever the chunker loop terminates, each
chunk has length at most the limit, and the original text is the chunks in
order interleaved with whitespace-only segments.  (The "no chunk is empty"
part of the claim is false, see the counterexample.) -/
theorem c3_chunk_properties (cs fuel : Nat) (msg : List Char) (chunks : List (List Char))
    (h : chunkLoop cs fuel msg = some chunks) :
    (∀ c ∈ chunks, c.length ≤ cs) ∧ Reconstructs chunks msg := by
  induction fuel generalizing msg chunks with
  | zero =>
      simp only [chunkLoop] at h
      split at h
      · rename_i hemp
        rw [List.isEmpty_iff] at hemp
        cases h
        subst hemp
        exact ⟨by simp, .nil [] (by simp)⟩
      · cases h
  | succ fuel ih =>
      simp only [chunkLoop] at h
      split at h
      · rename_i hemp
        rw [List.isEmpty_iff] at hemp
        cases h
        subst hemp
        exact ⟨by simp, .nil [] (by simp)⟩
      · rename_i hemp
        rw [Option.map_eq_some'] at h
        obtain ⟨rest, hrest, hchunks⟩ := h
        obtain ⟨hb, hr⟩ := ih (msg.drop (splitIndex cs msg)) rest hrest
        subst hchunks
        constructor
        · intro c hc
          rcases List.mem_cons.1 hc with hc | hc
          · subst hc
            exact chunk_length_le cs msg
          · exact hb c hc
        · obtain ⟨w₁, w₂, hdecomp, hw₁, hw₂⟩ :=
            stripChars_decomp (msg.take (splitIndex cs msg))
          have hmsg : msg = w₁ ++ (stripChars (msg.take (splitIndex cs msg)) ++
              (w₂ ++ msg.drop (splitIndex cs msg))) := by
            conv_lhs => rw [← List.take_append_drop (splitIndex cs msg) msg, hdecomp]
            simp [List.append_assoc]
          have hrec : Reconstructs (stripChars (msg.take (splitIndex cs msg)) :: rest)
              (w₁ ++ (stripChars (msg.take (splitIndex cs msg)) ++
                (w₂ ++ msg.drop (splitIndex cs msg)))) :=
            .cons w₁ _ rest _ hw₁ (hr.ws_prepend hw₂)
          rw [← hmsg] at hrec
          exact hrec

/-- Claim C3 counterexample: with limit 1 the input `" a"` produces the chunk
sequence `["", "a"]` — the first chunk is the empty string, refuting the
"no chunk is empty" part of the claim. -/
theorem c3_empty_chunk_cex :
    chunkLoop 1 5 (" a".data) = some [[], ['a']] := by
  rfl

/-- Witness for C3 on the spec example: `chunk("a bb ccc dddd", 5)` yields
`["a bb", "ccc", "dddd"]`, which satisfies the amended properties. -/
theorem c3_chunk_properties_witness :
    (∀ c ∈ ["a bb".data, "ccc".data, "dddd".data], c.length ≤ 5) ∧
      Reconstructs ["a bb".data, "ccc".data, "dddd".data] ("a bb ccc dddd".data) :=
  c3_chunk_properties 5 20 ("a bb ccc dddd".data) ["a bb".data, "ccc".data, "dddd".data]
    (by rfl)

/-! ### `pyMaxBy` lemmas -/

theorem pyMaxBy_mem (key : Msg → Nat) (best : Msg) (l : List Msg) :
    pyMaxBy key best l ∈ best :: l := by
  induction l generalizing best with
  | nil => simp [pyMaxBy]
  | cons m rest ih =>
      simp only [pyMaxBy]
      have h := ih (if key best < key m then m else best)
      rcases List.mem_cons.1 h with h | h
      · rw [h]
        split <;> simp
      · simp [h]

theorem le_pyMaxBy (key : Msg → Nat) (best : Msg) (l : List Msg) :
    key best ≤ key (pyMaxBy key best l) ∧ ∀ x ∈ l, key x ≤ key (pyMaxBy key best l) := by
  induction l generalizing best with
  | nil => simp [pyMaxBy]
  | cons m rest ih =>
      simp only [pyMaxBy]
      obtain ⟨h1, h2⟩ := ih (if key best < key m then m else best)
      constructor
      · refine le_trans ?_ h1
        split <;> omega
      · intro x hx
        rcases List.mem_cons.1 hx with hx | hx
        · subst hx
          refine le_trans ?_ h1
          split <;> omega
        · exact h2 x hx

theorem pyMaxBy_of_all_le (key : Msg → Nat) (best : Msg) (l : List Msg)
    (h : ∀ x ∈ l, key x ≤ key best) : pyMaxBy key best l = best := by
  induction l with
  | nil => rfl
  | cons m rest ih =>
      simp only [pyMaxBy]
      have hm : key m ≤ key best := h m (List.mem_cons_self m rest)
      rw [if_neg (by omega)]
      exact ih (fun x hx => h x (List.mem_cons_of_mem m hx))

theorem pyMaxBy_append (key : Msg → Nat) (best : Msg) (l₁ l₂ : List Msg) :
    pyMaxBy key best (l₁ ++ l₂) = pyMaxBy key (pyMaxBy key best l₁) l₂ := by
  induction l₁ generalizing best with
  | nil => simp [pyMaxBy]
  | cons m rest ih => simp only [List.cons_append, pyMaxBy, List.append_eq, ih]

/-! ### Claims C5 and C9 -/

/-- Claim C5 (confirmed): the selector returns the text of the assistant
message with the (strictly) maximal creation timestamp when one exists, and
the sentinel text when the list has no assistant-authored message. -/
theorem c5_selector_correct :
    (∀ (data : List Msg) (m : Msg), m ∈ data → m.role = "assistant" →
        (∀ m2 ∈ data, m2.role = "assistant" → m2 ≠ m → m2.created_at < m.created_at) →
        retrieve_latest_response data = m.text)
  ∧ (∀ data : List Msg, (∀ m ∈ data, m.role ≠ "assistant") →
        retrieve_latest_response data = noResponseStr) := by
  constructor
  · intro data m hmem hrole hmax
    have hmf : m ∈ data.filter (fun m => m.role == "assistant") :=
      List.mem_filter.2 ⟨hmem, by simp [hrole]⟩
    unfold retrieve_latest_response
    cases hf : data.filter (fun m => m.role == "assistant") with
    | nil => rw [hf] at hmf; cases hmf
    | cons a rest =>
        rw [hf] at hmf
        show (pyMaxBy (fun x => x.created_at) a rest).text = m.text
        have hrm : pyMaxBy (fun x => x.created_at) a rest ∈ a :: rest :=
          pyMaxBy_mem _ a rest
        have hrfil : pyMaxBy (fun x => x.created_at) a rest ∈
            data.filter (fun m => m.role == "assistant") := by
          rw [hf]; exact hrm
        have hrdata : pyMaxBy (fun x => x.created_at) a rest ∈ data :=
          (List.mem_filter.1 hrfil).1
        have hrrole : (pyMaxBy (fun x => x.created_at) a rest).role = "assistant" := by
          have := (List.mem_filter.1 hrfil).2
          simpa using this
        have hmle : m.created_at ≤ (pyMaxBy (fun x => x.created_at) a rest).created_at := by
          obtain ⟨h1, h2⟩ := le_pyMaxBy (fun x => x.created_at) a rest
          rcases List.mem_cons.1 hmf with hm | hm
          · rw [hm]; exact h1
          · exact h2 m hm
        by_cases heq : pyMaxBy (fun x => x.created_at) a rest = m
        · rw [heq]
        · have := hmax _ hrdata hrrole heq
          omega
  · intro data h
    have hf : data.filter (fun m => m.role == "assistant") = [] := by
      rw [List.filter_eq_nil_iff]
      intro m hm
      simp [h m hm]
    unfold retrieve_latest_response
    rw [hf]

/-- Witness for C5 on the spec example: the assistant messages have
timestamps 10 ("A") and 20 ("B"); the selector returns "B"; and a list with
no assistant message yields the sentinel. -/
theorem c5_selector_correct_witness :
    retrieve_latest_response
        [⟨"user", 1, "hi"⟩, ⟨"assistant", 10, "A"⟩, ⟨"assistant", 20, "B"⟩] = "B"
  ∧ retrieve_latest_response [⟨"user", 1, "hi"⟩] = noResponseStr :=
  ⟨c5_selector_correct.1
      [⟨"user", 1, "hi"⟩, ⟨"assistant", 10, "A"⟩, ⟨"assistant", 20, "B"⟩]
      ⟨"assistant", 20, "B"⟩ (by decide) rfl (by decide),
   c5_selector_correct.2 [⟨"user", 1, "hi"⟩] (by decide)⟩

/-- Claim C9 counterexample: with two assistant messages sharing the maximal
timestamp, Python `max` keeps the FIRST one, so the selector returns "A",
not the last-encountered "B" the claim requires. -/
theorem c9_tie_break_cex :
    retrieve_latest_response [⟨"assistant", 5, "A"⟩, ⟨"assistant", 5, "B"⟩] = "A"
  ∧ retrieve_latest_response [⟨"assistant", 5, "A"⟩, ⟨"assistant", 5, "B"⟩] ≠ "B" := by
  constructor
  · rfl
  · decide

/-- Claim C9 (amended, proved): on ties the selector deterministically
returns the FIRST-encountered assistant message attaining the maximal
timestamp in backend-returned order: if every assistant message before `m`
has a strictly smaller timestamp and every one after it has a timestamp at
most `m`'s, the selector returns `m.text`. -/
theorem c9_first_max_tie (pre post : List Msg) (m : Msg)
    (hrole : m.role = "assistant")
    (hpre : ∀ p ∈ pre, p.role = "assistant" → p.created_at < m.created_at)
    (hpost : ∀ q ∈ post, q.role = "assistant" → q.created_at ≤ m.created_at) :
    retrieve_latest_response (pre ++ m :: post) = m.text := by
  unfold retrieve_latest_response
  rw [List.filter_append, List.filter_cons_of_pos (by simp [hrole])]
  have hpostle : ∀ q ∈ post.filter (fun m => m.role == "assistant"),
      q.created_at ≤ m.created_at := by
    intro q hq
    obtain ⟨hq1, hq2⟩ := List.mem_filter.1 hq
    exact hpost q hq1 (by simpa using hq2)
  cases hf : pre.filter (fun m => m.role == "assistant") with
  | nil =>
      simp only [List.nil_append]
      rw [pyMaxBy_of_all_le _ _ _ hpostle]
  | cons a rest =>
      simp only [List.cons_append]
      rw [pyMaxBy_append (fun x => x.created_at) a rest (m :: post.filter (fun m => m.role == "assistant"))]
      set b := pyMaxBy (fun x => x.created_at) a rest with hbdef
      have hb : b ∈ a :: rest := pyMaxBy_mem _ a rest
      have hbpre : b ∈ pre.filter (fun m => m.role == "assistant") := by
        rw [hf]; exact hb
      have hblt : b.created_at < m.created_at := by
        obtain ⟨h1, h2⟩ := List.mem_filter.1 hbpre
        exact hpre b h1 (by simpa using h2)
      simp only [pyMaxBy]
      rw [if_pos hblt]
      rw [pyMaxBy_of_all_le _ _ _ hpostle]

/-- Witness for C9 (amended): a user message, then assistant "A" at
timestamp 5, then assistant "B" also at timestamp 5 — the selector returns
the first maximal assistant message "A". -/
theorem c9_first_max_tie_witness :
    retrieve_latest_response
        [⟨"user", 9, "u"⟩, ⟨"assistant", 5, "A"⟩, ⟨"assistant", 5, "B"⟩] = "A" :=
  c9_first_max_tie [⟨"user", 9, "u"⟩] [⟨"assistant", 5, "B"⟩] ⟨"assistant", 5, "A"⟩
    rfl (by decide) (by decide)

/-! ### Store lemmas -/

theorem storeGet_storeSet_self (store : List (Nat × Session)) (k : Nat) (v : Session) :
    storeGet (storeSet store k v) k = some v := by
  induction store with
  | nil => simp [storeGet, storeSet]
  | cons kv rest ih =>
      simp only [storeSet]
      split
      · simp [storeGet]
      · rename_i hne
        simp [storeGet, hne, ih]

theorem storeGet_storeSet_other (store : List (Nat × Session)) (k k2 : Nat) (v : Session)
    (h : k2 ≠ k) : storeGet (storeSet store k v) k2 = storeGet store k2 := by
  induction store with
  | nil =>
      show storeGet [(k, v)] k2 = storeGet [] k2
      simp only [storeGet]
      rw [if_neg (Ne.symm h)]
  | cons kv rest ih =>
      simp only [storeSet]
      split
      · rename_i heq
        simp only [storeGet]
        rw [if_neg (Ne.symm h), heq, if_neg (Ne.symm h)]
      · simp only [storeGet]
        split
        · rfl
        · exact ih

theorem mem_keys_storeSet (store : List (Nat × Session)) (k a : Nat) (v : Session) :
    a ∈ (storeSet store k v).map Prod.fst ↔ a ∈ store.map Prod.fst ∨ a = k := by
  induction store with
  | nil => simp [storeSet]
  | cons kv rest ih =>
      simp only [storeSet]
      split
      · rename_i heq
        subst heq
        simp only [List.map_cons, List.mem_cons]
        tauto
      · simp only [List.map_cons, List.mem_cons, ih]
        tauto

theorem nodup_keys_storeSet (store : List (Nat × Session)) (k : Nat) (v : Session)
    (h : (store.map Prod.fst).Nodup) : ((storeSet store k v).map Prod.fst).Nodup := by
  induction store with
  | nil => simp [storeSet]
  | cons kv rest ih =>
      simp only [List.map_cons, List.nodup_cons] at h
      obtain ⟨hkv, hrest⟩ := h
      simp only [storeSet]
      split
      · rename_i heq
        subst heq
        simp only [List.map_cons, List.nodup_cons]
        exact ⟨hkv, hrest⟩
      · rename_i hne
        simp only [List.map_cons, List.nodup_cons]
        refine ⟨?_, ih hrest⟩
        rw [mem_keys_storeSet]
        rintro (h | h)
        · exact hkv h
        · exact hne h

/-- One pass of the deletion loop is a filter of the accumulator by the
iterated snapshot. -/
theorem cleanup_foldl_filter (now th : Int) (items acc : List (Nat × Session)) :
    items.foldl
        (fun acc kv => if now - kv.2.last_used > th then delKey kv.1 acc else acc) acc =
      acc.filter
        (fun kv => !items.any
          (fun e => decide (now - e.2.last_used > th) && (e.1 == kv.1))) := by
  induction items generalizing acc with
  | nil => simp
  | cons e rest ih =>
      simp only [List.foldl_cons, ih]
      by_cases hc : now - e.2.last_used > th
      · rw [if_pos hc]
        unfold delKey
        rw [List.filter_filter]
        apply List.filter_congr
        intro kv _
        by_cases hk : kv.1 = e.1
        · simp [List.any_cons, hk, hc]
        · have hk2 : ¬(e.1 = kv.1) := fun hh => hk hh.symm
          have h3 : (kv.1 != e.1) = true := by simp [hk]
          have h4 : (e.1 == kv.1) = false := by simp [hk2]
          simp only [List.any_cons, h3, h4, hc, Bool.false_and, Bool.false_or,
            Bool.true_and, Bool.and_true, decide_eq_true_eq]
          simp [Bool.and_comm]
      · rw [if_neg hc]
        apply List.filter_congr
        intro kv _
        simp [List.any_cons, hc]

/-- With unique keys, `cleanup_old_threads` is exactly the filter keeping the
sessions used within the threshold. -/
theorem cleanup_eq_filter (now th : Int) (store : List (Nat × Session))
    (h : (store.map Prod.fst).Nodup) :
    cleanup_old_threads now th store =
      store.filter (fun kv => !decide (now - kv.2.last_used > th)) := by
  unfold cleanup_old_threads
  rw [cleanup_foldl_filter]
  apply List.filter_congr
  intro kv hkv
  congr 1
  cases hc : decide (now - kv.2.last_used > th) with
  | true =>
      rw [List.any_eq_true]
      exact ⟨kv, hkv, by simp [hc]⟩
  | false =>
      rw [Bool.eq_false_iff]
      intro hany
      rw [List.any_eq_true] at hany
      obtain ⟨e, he, hcond⟩ := hany
      rw [Bool.and_eq_true, beq_iff_eq] at hcond
      obtain ⟨hct, hkey⟩ := hcond
      have : e = kv := by
        have h1 : e.1 = kv.1 := hkey
        by_contra hne
        have := List.inj_on_of_nodup_map h
        exact hne (this he hkv h1)
      subst this
      rw [hc] at hct
      cases hct

theorem storeGet_filter_of_true (store : List (Nat × Session))
    (p : Nat × Session → Bool) (k : Nat) (v : Session)
    (hget : storeGet store k = some v) (hp : p (k, v) = true) :
    storeGet (store.filter p) k = some v := by
  induction store with
  | nil => cases hget
  | cons kv rest ih =>
      simp only [storeGet] at hget
      by_cases hk : kv.1 = k
      · rw [if_pos hk] at hget
        injection hget with hv
        have hkv : kv = (k, v) := by
          obtain ⟨a, b⟩ := kv
          simp only at hk hv
          rw [hk, hv]
        subst hkv
        rw [List.filter_cons_of_pos hp]
        simp [storeGet]
      · rw [if_neg hk] at hget
        by_cases hkeep : p kv = true
        · rw [List.filter_cons_of_pos hkeep]
          simp only [storeGet]
          rw [if_neg hk]
          exact ih hget
        · rw [List.filter_cons_of_neg (by simpa using hkeep)]
          exact ih hget

/-! ### Claim C7 -/

/-- Claim C7 (confirmed): for any store with unique keys, any `now` and any
idle threshold, the sweep keeps a stored session exactly when its
`last_used` is within the threshold of `now` — it removes exactly the
sessions with `now - last_used > th` and never removes one inside the
threshold. -/
theorem c7_sweep_exact (now th : Int) (store : List (Nat × Session))
    (hnd : (store.map Prod.fst).Nodup) (kv : Nat × Session) (hkv : kv ∈ store) :
    kv ∈ cleanup_old_threads now th store ↔ ¬(now - kv.2.last_used > th) := by
  rw [cleanup_eq_filter now th store hnd, List.mem_filter]
  constructor
  · rintro ⟨-, hp⟩
    simpa using hp
  · intro hp
    exact ⟨hkv, by simpa using hp⟩

/-- Witness for C7: with `now = 200` and threshold 50, the session last used
at 180 is within the threshold and is kept by the sweep. -/
theorem c7_sweep_exact_witness :
    (((2 : Nat), (⟨none, 180⟩ : Session)) ∈
        cleanup_old_threads 200 50 [(1, ⟨none, 100⟩), (2, ⟨none, 180⟩)] ↔
      ¬((200 : Int) - 180 > 50)) :=
  c7_sweep_exact 200 50 [(1, ⟨none, 100⟩), (2, ⟨none, 180⟩)] (by decide)
    ((2 : Nat), (⟨none, 180⟩ : Session)) (by decide)

/-! ### ensureThread lemmas -/

theorem ensureThread_hot (be : Backend) (id : Nat) (now : Int) (s : SysState) (tid : String)
    (h : (storeGet s.thread_ids id).bind Session.thread_id = some tid) :
    ensureThread be id now s = (some (some tid), s) := by
  unfold ensureThread getDefaultSession
  cases hget : storeGet s.thread_ids id with
  | none => rw [hget] at h; cases h
  | some sess =>
      rw [hget] at h
      simp only [Option.some_bind] at h
      simp only [hget, h]

theorem ensureThread_cold_fail (be : Backend) (id : Nat) (now : Int) (s : SysState)
    (hcold : ∀ sess, storeGet s.thread_ids id = some sess → sess.thread_id = none)
    (hfail : be.createThreadR s.ctCalls = none) :
    ∃ s1, ensureThread be id now s = (none, s1) ∧
      s1.ctCalls = s.ctCalls + 1 ∧
      (∀ sess, storeGet s1.thread_ids id = some sess → sess.thread_id = none) ∧
      s1.cmCalls = s.cmCalls ∧ s1.crCalls = s.crCalls ∧ s1.rrCalls = s.rrCalls ∧
      s1.lmCalls = s.lmCalls ∧ s1.sendCalls = s.sendCalls ∧ s1.sent = s.sent := by
  unfold ensureThread getDefaultSession
  cases hget : storeGet s.thread_ids id with
  | some sess =>
      have hnone := hcold sess hget
      simp only [hget, hnone, create_new_thread, hfail]
      refine ⟨_, rfl, rfl, ?_, rfl, rfl, rfl, rfl, rfl, rfl⟩
      intro sess2 hget2
      simp only at hget2
      rw [hget] at hget2
      cases hget2
      exact hnone
  | none =>
      simp only [hget, create_new_thread, hfail]
      refine ⟨_, rfl, rfl, ?_, rfl, rfl, rfl, rfl, rfl, rfl⟩
      intro sess2 hget2
      simp only at hget2
      rw [storeGet_storeSet_self] at hget2
      cases hget2
      rfl

theorem ensureThread_cold_ok (be : Backend) (id : Nat) (now : Int) (s : SysState)
    (tid : String)
    (hcold : ∀ sess, storeGet s.thread_ids id = some sess → sess.thread_id = none)
    (hok : be.createThreadR s.ctCalls = some tid) :
    ∃ s1, ensureThread be id now s = (some (some tid), s1) ∧
      s1.ctCalls = s.ctCalls + 1 ∧
      storeGet s1.thread_ids id = some ⟨some tid, now⟩ ∧
      s1.cmCalls = s.cmCalls ∧ s1.crCalls = s.crCalls ∧ s1.rrCalls = s.rrCalls ∧
      s1.lmCalls = s.lmCalls ∧ s1.sendCalls = s.sendCalls ∧ s1.sent = s.sent := by
  unfold ensureThread getDefaultSession
  cases hget : storeGet s.thread_ids id with
  | some sess =>
      have hnone := hcold sess hget
      have hss := storeGet_storeSet_self s.thread_ids id ⟨some tid, now⟩
      simp only [hget, hnone, create_new_thread, hok, hss, Option.some_bind]
      exact ⟨_, rfl, rfl, hss, rfl, rfl, rfl, rfl, rfl, rfl⟩
  | none =>
      have hss := storeGet_storeSet_self
        (storeSet s.thread_ids id ⟨none, now⟩) id ⟨some tid, now⟩
      simp only [hget, create_new_thread, hok, hss, Option.some_bind]
      exact ⟨_, rfl, rfl, hss, rfl, rfl, rfl, rfl, rfl, rfl⟩

/-- Whatever the creation outcome, a call on a cold session makes exactly one
external creation call. -/
theorem ensureThread_cold_ct (be : Backend) (id : Nat) (now : Int) (s : SysState)
    (hcold : ∀ sess, storeGet s.thread_ids id = some sess → sess.thread_id = none) :
    (ensureThread be id now s).2.ctCalls = s.ctCalls + 1 := by
  unfold ensureThread getDefaultSession
  cases hget : storeGet s.thread_ids id with
  | some sess =>
      have hnone := hcold sess hget
      simp only [hget, hnone, create_new_thread]
      cases be.createThreadR s.ctCalls <;> rfl
  | none =>
      simp only [hget, create_new_thread]
      cases be.createThreadR s.ctCalls <;> rfl

/-! ### Claims C4 and C8 -/

/-- Claim C4 (confirmed): on a cold session, the first `ensureThread`
performs exactly one external creation call, stores the handle, and returns
it; the second call returns the stored handle and changes nothing at all —
in particular it makes no backend call. -/
theorem c4_single_thread_creation (be : Backend) (id : Nat) (now now2 : Int)
    (s : SysState) (tid : String)
    (hcold : ∀ sess, storeGet s.thread_ids id = some sess → sess.thread_id = none)
    (hok : be.createThreadR s.ctCalls = some tid) :
    ∃ s1, ensureThread be id now s = (some (some tid), s1) ∧
      s1.ctCalls = s.ctCalls + 1 ∧
      storeGet s1.thread_ids id = some ⟨some tid, now⟩ ∧
      ensureThread be id now2 s1 = (some (some tid), s1) := by
  obtain ⟨s1, heq, hct, hget, -⟩ := ensureThread_cold_ok be id now s tid hcold hok
  refine ⟨s1, heq, hct, hget, ?_⟩
  apply ensureThread_hot
  rw [hget]
  rfl

/-- Witness for C4 from the empty state: the handle "T1" is created once and
returned by both calls. -/
theorem c4_single_thread_creation_witness :
    ∃ s1, ensureThread beAllOk 1 0 initState = (some (some "T1"), s1) ∧
      s1.ctCalls = initState.ctCalls + 1 ∧
      storeGet s1.thread_ids 1 = some ⟨some "T1", 0⟩ ∧
      ensureThread beAllOk 1 5 s1 = (some (some "T1"), s1) :=
  c4_single_thread_creation beAllOk 1 0 5 initState "T1" (fun _ h => nomatch h) rfl

/-- Claim C8 (confirmed): when the external creation call fails on a cold
session, `ensureThread` re-raises, the session is still cold (no partially
stored handle), and a later call for the same identifier performs a fresh
creation call. -/
theorem c8_creation_failure_stays_cold (be be2 : Backend) (id : Nat) (now now2 : Int)
    (s : SysState)
    (hcold : ∀ sess, storeGet s.thread_ids id = some sess → sess.thread_id = none)
    (hfail : be.createThreadR s.ctCalls = none) :
    ∃ s1, ensureThread be id now s = (none, s1) ∧
      (∀ sess, storeGet s1.thread_ids id = some sess → sess.thread_id = none) ∧
      (ensureThread be2 id now2 s1).2.ctCalls = s1.ctCalls + 1 := by
  obtain ⟨s1, heq, hct, hcold1, -⟩ := ensureThread_cold_fail be id now s hcold hfail
  exact ⟨s1, heq, hcold1, ensureThread_cold_ct be2 id now2 s1 hcold1⟩

/-- Witness for C8: creation fails from the empty state; the session stays
cold and the next call (with a working backend) performs a creation call. -/
theorem c8_creation_failure_stays_cold_witness :
    ∃ s1, ensureThread beNoThread 1 0 initState = (none, s1) ∧
      (∀ sess, storeGet s1.thread_ids 1 = some sess → sess.thread_id = none) ∧
      (ensureThread beAllOk 1 5 s1).2.ctCalls = s1.ctCalls + 1 :=
  c8_creation_failure_stays_cold beNoThread beAllOk 1 0 5 initState
    (fun _ h => nomatch h) rfl

/-! ### Claim C10 -/

/-- Claim C10 (confirmed): an event authored by the bot, or containing
"@everyone" or "@here", makes the handler return before touching anything:
the final state equals the initial state — no session created or touched, no
sweep, no backend call, no outbound send. -/
theorem c10_filtered_events_no_effect (be : Backend) (ev : Event) (now : Int)
    (fuel : Nat) (s : SysState)
    (h : ev.author_is_bot = true ∨ containsTok ev.content "@everyone" = true ∨
      containsTok ev.content "@here" = true) :
    on_message be ev now fuel s = some s := by
  rcases h with h | h | h
  · simp [on_message, h]
  · cases hb : ev.author_is_bot <;> simp [on_message, hb, h]
  · cases hb : ev.author_is_bot <;> simp [on_message, hb, h]

/-- Witness for C10: a bot-authored event and a broadcast-mention event both
leave the state untouched. -/
theorem c10_filtered_events_no_effect_witness :
    on_message beAllOk evBot 0 3 sHot1 = some sHot1 ∧
      on_message beAllOk evBroadcast 0 3 sHot1 = some sHot1 :=
  ⟨c10_filtered_events_no_effect beAllOk evBot 0 3 sHot1 (Or.inl rfl),
   c10_filtered_events_no_effect beAllOk evBroadcast 0 3 sHot1 (Or.inr (Or.inl (by decide)))⟩

/-! ### Claim C6 -/

/-- Claim C6 counterexample: with retrieved statuses pending, pending,
completed, the poller has made 3 status-retrieval calls (one per retrieved
status) by the time reply selection runs — not 2 as the claim states. -/
theorem c6_two_polls_cex :
    ((interact_with_openai beC6 "m" 1 0 9 sHot1).map (fun r => r.2.rrCalls)) = some 3 ∧
      (3 : Nat) ≠ 2 := by
  constructor
  · rfl
  · decide

/-- Claim C6 (amended, proved): a job whose successive retrieved statuses
are pending, pending, completed causes exactly 3 poll (status-retrieval)
calls — the third retrieves "completed" — and reply selection (one
`listMessages` call) runs right afterwards. -/
theorem c6_poll_call_count :
    (∀ (be : Backend) (s : SysState) (fuel : Nat),
        be.retrieveRunR s.rrCalls = some "pending" →
        be.retrieveRunR (s.rrCalls + 1) = some "pending" →
        be.retrieveRunR (s.rrCalls + 2) = some "completed" →
        3 ≤ fuel →
        ∃ s4, pollLoop be fuel s = some (true, s4) ∧ s4.rrCalls = s.rrCalls + 3)
  ∧ ((interact_with_openai beC6 "m" 1 0 9 sHot1).map
      (fun r => (r.2.rrCalls, r.2.lmCalls))) = some (3, 1) := by
  constructor
  · intro be s fuel h0 h1 h2 hf
    obtain ⟨f, rfl⟩ : ∃ f, fuel = f + 3 := ⟨fuel - 3, by omega⟩
    have h1' : be.retrieveRunR (s.rrCalls + 1) = some "pending" := h1
    have h2' : be.retrieveRunR (s.rrCalls + 1 + 1) = some "completed" := h2
    have hb1 : (("pending" : String) == "completed") = false := by decide
    have hb2 : (("completed" : String) == "completed") = true := by decide
    have e3 : s.rrCalls + 1 + 1 + 1 = s.rrCalls + 3 := by omega
    refine ⟨{ s with rrCalls := s.rrCalls + 3 }, ?_, rfl⟩
    show pollLoop be (f + 2 + 1) s = some (true, { s with rrCalls := s.rrCalls + 3 })
    simp [pollLoop, h0, h1', h2', hb1, hb2, e3]
  · rfl

/-- Witness for C6 (amended) on the concrete pending-pending-completed
backend from the initial state. -/
theorem c6_poll_call_count_witness :
    ∃ s4, pollLoop beC6 3 initState = some (true, s4) ∧
      s4.rrCalls = initState.rrCalls + 3 :=
  c6_poll_call_count.1 beC6 initState 3 (by decide) (by decide) (by decide) (by decide)

/-! ### Touch and sweep lemmas -/

theorem storeGet_touchSession (id : Nat) (now : Int) (store : List (Nat × Session)) :
    storeGet (touchSession id now store) id =
      some ⟨((storeGet store id).map Session.thread_id).getD none, now⟩ := by
  unfold touchSession
  cases h : storeGet store id with
  | none => simp [storeGet_storeSet_self]
  | some sess => simp [storeGet_storeSet_self]

theorem nodup_keys_touchSession (id : Nat) (now : Int) (store : List (Nat × Session))
    (h : (store.map Prod.fst).Nodup) :
    ((touchSession id now store).map Prod.fst).Nodup := by
  unfold touchSession
  cases storeGet store id <;> exact nodup_keys_storeSet store id _ h

theorem storeGet_cleanup_keep (now th : Int) (store : List (Nat × Session))
    (hnd : (store.map Prod.fst).Nodup) (k : Nat) (v : Session)
    (hget : storeGet store k = some v) (hkeep : ¬(now - v.last_used > th)) :
    storeGet (cleanup_old_threads now th store) k = some v := by
  rw [cleanup_eq_filter now th store hnd]
  exact storeGet_filter_of_true store _ k v hget (by simpa using hkeep)

/-- After touching session `id` at time `now` and sweeping, the stored
session for `id` keeps its previous handle (absent handle when the session
did not exist) and has `last_used = now`; it always survives the sweep. -/
theorem storeGet_touchSweep (id : Nat) (now : Int) (s : SysState)
    (hnd : (s.thread_ids.map Prod.fst).Nodup) :
    storeGet (touchSweep id now s).thread_ids id =
      some ⟨((storeGet s.thread_ids id).map Session.thread_id).getD none, now⟩ := by
  show storeGet (cleanup_old_threads now 3600 (touchSession id now s.thread_ids)) id = _
  apply storeGet_cleanup_keep
  · exact nodup_keys_touchSession id now s.thread_ids hnd
  · exact storeGet_touchSession id now s.thread_ids
  · show ¬(now - now > 3600)
    omega

/-! ### sendChunksEff lemmas -/

theorem sendChunksEff_nil (be : Backend) (cs fuel : Nat) (s : SysState) :
    sendChunksEff be cs fuel [] s = some (true, s) := by
  cases fuel <;> simp [sendChunksEff]

/-- Sending the fallback text: it is shorter than the 2000 limit and free of
leading and trailing whitespace, so it goes out as a single chunk. -/
theorem sendChunksEff_fallback (be : Backend) (fuel : Nat) (s : SysState)
    (hsend : be.sendR s.sendCalls = true) (hf : 1 ≤ fuel) :
    sendChunksEff be 2000 fuel fallbackStr.data s =
      some (true, { s with sendCalls := s.sendCalls + 1,
                           sent := s.sent ++ [fallbackStr] }) := by
  obtain ⟨f, rfl⟩ : ∃ f, fuel = f + 1 := ⟨fuel - 1, by omega⟩
  have he : fallbackStr.data.isEmpty = false := by decide
  have hd : fallbackStr.data.drop (splitIndex 2000 fallbackStr.data) = [] := by decide
  have hc : String.mk (stripChars (fallbackStr.data.take (splitIndex 2000 fallbackStr.data)))
      = fallbackStr := by decide
  simp [sendChunksEff, he, hsend, hd, hc, sendChunksEff_nil]

/-! ### interact_with_openai failure lemmas -/

/-- A message-submission failure is caught by the `try` and yields the
fallback text. -/
theorem interact_hot_submit_fail (be : Backend) (msg : String) (id : Nat) (now : Int)
    (fuel : Nat) (s : SysState) (tid : String)
    (hhot : (storeGet s.thread_ids id).bind Session.thread_id = some tid)
    (hcm : be.createMessageR s.cmCalls = false) :
    interact_with_openai be msg id now fuel s =
      some (some fallbackStr, { s with cmCalls := s.cmCalls + 1 }) := by
  unfold interact_with_openai
  rw [ensureThread_hot be id now s tid hhot]
  simp [hcm]

/-- A run-creation failure is caught by the `try` and yields the fallback
text. -/
theorem interact_hot_runcreate_fail (be : Backend) (msg : String) (id : Nat) (now : Int)
    (fuel : Nat) (s : SysState) (tid : String)
    (hhot : (storeGet s.thread_ids id).bind Session.thread_id = some tid)
    (hcm : be.createMessageR s.cmCalls = true)
    (hcr : be.createRunR s.crCalls = none) :
    interact_with_openai be msg id now fuel s =
      some (some fallbackStr, { s with cmCalls := s.cmCalls + 1,
                                       crCalls := s.crCalls + 1 }) := by
  unfold interact_with_openai
  rw [ensureThread_hot be id now s tid hhot]
  simp [hcm, hcr]

/-- A status-retrieval transport failure is caught by the `try` and yields
the fallback text. -/
theorem interact_hot_poll_fail (be : Backend) (msg : String) (id : Nat) (now : Int)
    (fuel : Nat) (s : SysState) (tid rid : String)
    (hhot : (storeGet s.thread_ids id).bind Session.thread_id = some tid)
    (hcm : be.createMessageR s.cmCalls = true)
    (hcr : be.createRunR s.crCalls = some rid)
    (hrr : be.retrieveRunR s.rrCalls = none)
    (hf : 1 ≤ fuel) :
    interact_with_openai be msg id now fuel s =
      some (some fallbackStr, { s with cmCalls := s.cmCalls + 1,
                                       crCalls := s.crCalls + 1,
                                       rrCalls := s.rrCalls + 1 }) := by
  obtain ⟨f, rfl⟩ : ∃ f, fuel = f + 1 := ⟨fuel - 1, by omega⟩
  unfold interact_with_openai
  rw [ensureThread_hot be id now s tid hhot]
  simp [hcm, hcr, pollLoop, hrr]

/-- A message-list failure after a completed poll is caught by the `try` and
yields the fallback text. -/
theorem interact_hot_select_fail (be : Backend) (msg : String) (id : Nat) (now : Int)
    (fuel : Nat) (s s4 : SysState) (tid rid : String)
    (hhot : (storeGet s.thread_ids id).bind Session.thread_id = some tid)
    (hcm : be.createMessageR s.cmCalls = true)
    (hcr : be.createRunR s.crCalls = some rid)
    (hpoll : pollLoop be fuel
        { s with cmCalls := s.cmCalls + 1, crCalls := s.crCalls + 1 } = some (true, s4))
    (hlm : be.listMessagesR s4.lmCalls = none) :
    interact_with_openai be msg id now fuel s =
      some (some fallbackStr, { s4 with lmCalls := s4.lmCalls + 1 }) := by
  unfold interact_with_openai
  rw [ensureThread_hot be id now s tid hhot]
  simp [hcm, hcr, hpoll, hlm]

/-- A thread-creation failure escapes `interact_with_openai` (the creation
call sits outside its `try`) with no fallback text produced. -/
theorem interact_cold_thread_fail (be : Backend) (msg : String) (id : Nat) (now : Int)
    (fuel : Nat) (s : SysState)
    (hcold : ∀ sess, storeGet s.thread_ids id = some sess → sess.thread_id = none)
    (hfail : be.createThreadR s.ctCalls = none) :
    ∃ s1, interact_with_openai be msg id now fuel s = some (none, s1) ∧
      s1.sent = s.sent := by
  obtain ⟨s1, heq, -, -, -, -, -, -, -, hsent⟩ :=
    ensureThread_cold_fail be id now s hcold hfail
  refine ⟨s1, ?_, hsent⟩
  unfold interact_with_openai
  rw [heq]

/-- Unfolding `on_message` on an event that passes the author and broadcast
filters and mentions the bot. -/
theorem on_message_mention (be : Backend) (ev : Event) (now : Int) (fuel : Nat)
    (s : SysState)
    (hA : ev.author_is_bot = false) (hE : containsTok ev.content "@everyone" = false)
    (hH : containsTok ev.content "@here" = false) (hM : ev.mentions_bot = true) :
    on_message be ev now fuel s =
      (match interact_with_openai be ev.clean_content ev.channel_id now fuel
          (touchSweep ev.channel_id now s) with
      | none => none
      | some (none, s3) => some s3
      | some (some text, s3) =>
          match sendChunksEff be 2000 fuel text.data s3 with
          | none => none
          | some (_, s4) => some s4) := by
  unfold on_message
  rw [hA, hE, hH, hM]
  simp

/-! ### Claim C1 -/

/-- Claim C1 counterexample: a cold session, a mention, and a failing
thread-creation call — the handler completes with ZERO messages sent, not
the single fallback message the claim requires (the creation call sits
outside the `try` of `interact_with_openai`, so the exception is swallowed
by the top-level handler, which only logs). -/
theorem c1_no_fallback_cex :
    ((on_message beNoThread evPlain 0 5 initState).map SysState.sent) = some [] := by
  rfl

/-- Claim C1 (amended, proved):
(i) a thread-creation failure on a cold session produces NO user-visible
message at all (the handler completes with `sent` unchanged);
(ii)-(v) a failure of message submission, run creation, status retrieval, or
message listing is caught inside the `try` of `interact_with_openai` and
converted to exactly one fallback text;
(vi) when `interact_with_openai` returns the fallback text and the send
succeeds, the router sends exactly that one message. -/
theorem c1_router_fallback :
    (∀ (be : Backend) (ev : Event) (now : Int) (fuel : Nat) (s : SysState),
        ev.author_is_bot = false →
        containsTok ev.content "@everyone" = false →
        containsTok ev.content "@here" = false →
        ev.mentions_bot = true →
        (s.thread_ids.map Prod.fst).Nodup →
        (∀ sess, storeGet s.thread_ids ev.channel_id = some sess →
          sess.thread_id = none) →
        be.createThreadR s.ctCalls = none →
        ∃ sF, on_message be ev now fuel s = some sF ∧ sF.sent = s.sent)
  ∧ (∀ (be : Backend) (msg : String) (id : Nat) (now : Int) (fuel : Nat)
        (s : SysState) (tid : String),
        (storeGet s.thread_ids id).bind Session.thread_id = some tid →
        be.createMessageR s.cmCalls = false →
        interact_with_openai be msg id now fuel s =
          some (some fallbackStr, { s with cmCalls := s.cmCalls + 1 }))
  ∧ (∀ (be : Backend) (msg : String) (id : Nat) (now : Int) (fuel : Nat)
        (s : SysState) (tid : String),
        (storeGet s.thread_ids id).bind Session.thread_id = some tid →
        be.createMessageR s.cmCalls = true →
        be.createRunR s.crCalls = none →
        interact_with_openai be msg id now fuel s =
          some (some fallbackStr, { s with cmCalls := s.cmCalls + 1,
                                           crCalls := s.crCalls + 1 }))
  ∧ (∀ (be : Backend) (msg : String) (id : Nat) (now : Int) (fuel : Nat)
        (s : SysState) (tid rid : String),
        (storeGet s.thread_ids id).bind Session.thread_id = some tid →
        be.createMessageR s.cmCalls = true →
        be.createRunR s.crCalls = some rid →
        be.retrieveRunR s.rrCalls = none →
        1 ≤ fuel →
        interact_with_openai be msg id now fuel s =
          some (some fallbackStr, { s with cmCalls := s.cmCalls + 1,
                                           crCalls := s.crCalls + 1,
                                           rrCalls := s.rrCalls + 1 }))
  ∧ (∀ (be : Backend) (msg : String) (id : Nat) (now : Int) (fuel : Nat)
        (s s4 : SysState) (tid rid : String),
        (storeGet s.thread_ids id).bind Session.thread_id = some tid →
        be.createMessageR s.cmCalls = true →
        be.createRunR s.crCalls = some rid →
        pollLoop be fuel
            { s with cmCalls := s.cmCalls + 1, crCalls := s.crCalls + 1 } =
          some (true, s4) →
        be.listMessagesR s4.lmCalls = none →
        interact_with_openai be msg id now fuel s =
          some (some fallbackStr, { s4 with lmCalls := s4.lmCalls + 1 }))
  ∧ (∀ (be : Backend) (ev : Event) (now : Int) (fuel : Nat) (s s3 : SysState),
        ev.author_is_bot = false →
        containsTok ev.content "@everyone" = false →
        containsTok ev.content "@here" = false →
        ev.mentions_bot = true →
        interact_with_openai be ev.clean_content ev.channel_id now fuel
            (touchSweep ev.channel_id now s) = some (some fallbackStr, s3) →
        be.sendR s3.sendCalls = true →
        1 ≤ fuel →
        ∃ sF, on_message be ev now fuel s = some sF ∧
          sF.sent = s3.sent ++ [fallbackStr]) := by
  refine ⟨?_, ?_, ?_, ?_, ?_, ?_⟩
  · intro be ev now fuel s hA hE hH hM hnd hcold hfail
    have hts := storeGet_touchSweep ev.channel_id now s hnd
    have hcold2 : ∀ sess,
        storeGet (touchSweep ev.channel_id now s).thread_ids ev.channel_id = some sess →
        sess.thread_id = none := by
      intro sess h
      rw [hts] at h
      cases h
      show ((storeGet s.thread_ids ev.channel_id).map Session.thread_id).getD none = none
      cases hg : storeGet s.thread_ids ev.channel_id with
      | none => rfl
      | some sess2 => simp [hcold sess2 hg]
    have hfail2 : be.createThreadR (touchSweep ev.channel_id now s).ctCalls = none := hfail
    obtain ⟨s1, hint, hsent⟩ := interact_cold_thread_fail be ev.clean_content
      ev.channel_id now fuel (touchSweep ev.channel_id now s) hcold2 hfail2
    rw [on_message_mention be ev now fuel s hA hE hH hM, hint]
    exact ⟨s1, rfl, hsent⟩
  · intro be msg id now fuel s tid hhot hcm
    exact interact_hot_submit_fail be msg id now fuel s tid hhot hcm
  · intro be msg id now fuel s tid hhot hcm hcr
    exact interact_hot_runcreate_fail be msg id now fuel s tid hhot hcm hcr
  · intro be msg id now fuel s tid rid hhot hcm hcr hrr hf
    exact interact_hot_poll_fail be msg id now fuel s tid rid hhot hcm hcr hrr hf
  · intro be msg id now fuel s s4 tid rid hhot hcm hcr hpoll hlm
    exact interact_hot_select_fail be msg id now fuel s s4 tid rid hhot hcm hcr hpoll hlm
  · intro be ev now fuel s s3 hA hE hH hM hint hsend hf
    rw [on_message_mention be ev now fuel s hA hE hH hM, hint]
    simp only [sendChunksEff_fallback be fuel s3 hsend hf]
    exact ⟨_, rfl, rfl⟩

/-- Witness for C1: each part applied at a concrete input — thread-creation
failure sends nothing; each inner-stage failure returns the fallback text;
and the router sends the fallback exactly once when the inner pipeline
failed at submission. -/
theorem c1_router_fallback_witness :
    (∃ sF, on_message beNoThread evPlain 0 5 initState = some sF ∧
        sF.sent = initState.sent)
  ∧ interact_with_openai beNoSubmit "x" 1 0 3 sHot1 =
      some (some fallbackStr, { sHot1 with cmCalls := sHot1.cmCalls + 1 })
  ∧ interact_with_openai beNoRun "x" 1 0 3 sHot1 =
      some (some fallbackStr, { sHot1 with cmCalls := sHot1.cmCalls + 1,
                                           crCalls := sHot1.crCalls + 1 })
  ∧ interact_with_openai beNoPoll "x" 1 0 3 sHot1 =
      some (some fallbackStr, { sHot1 with cmCalls := sHot1.cmCalls + 1,
                                           crCalls := sHot1.crCalls + 1,
                                           rrCalls := sHot1.rrCalls + 1 })
  ∧ interact_with_openai beNoList "x" 1 0 3 sHot1 =
      some (some fallbackStr, { sPolled with lmCalls := sPolled.lmCalls + 1 })
  ∧ (∃ sF, on_message beNoSubmit evPlain 0 3 sHot1 = some sF ∧
        sF.sent = sAfterTouch.sent ++ [fallbackStr]) :=
  ⟨c1_router_fallback.1 beNoThread evPlain 0 5 initState rfl (by decide) (by decide)
      rfl (by decide) (fun _ h => nomatch h) rfl,
   c1_router_fallback.2.1 beNoSubmit "x" 1 0 3 sHot1 "T0" (by decide) rfl,
   c1_router_fallback.2.2.1 beNoRun "x" 1 0 3 sHot1 "T0" (by decide) rfl rfl,
   c1_router_fallback.2.2.2.1 beNoPoll "x" 1 0 3 sHot1 "T0" "R1" (by decide) rfl rfl
      rfl (by decide),
   c1_router_fallback.2.2.2.2.1 beNoList "x" 1 0 3 sHot1 sPolled "T0" "R1"
      (by decide) rfl rfl (by decide) rfl,
   c1_router_fallback.2.2.2.2.2 beNoSubmit evPlain 0 3 sHot1 sAfterTouch rfl
      (by decide) (by decide) rfl (by decide) rfl (by decide)⟩

end LeoGPT
